import Mathlib

/-!
Verification of the data-gathering core of the political-alpha repository.

The JavaScript sources embedded here:
  - src/cron.js            : RSS-bridge scraper (scrapeTweets, stripHtml,
                             scrapeAllAccounts)
  - src/api/cron.js (rev1) : syndication scraper (fetchViaSyndication,
                             fetchViaSearchSyndication), Google News RSS
                             (fetchGoogleNewsRSS with 60-char dedup key and
                             15-item cap), stripHtml with CDATA handling
  - src/api/cron.js (rev2) : Google News RSS (50-char dedup key, 10-item cap)

Strings are modelled as `List Char` (JS strings by code unit); machine time
`Date.now()` / `getTime()` values are `Int` milliseconds.  `new Date(s).getTime()`
is modelled by an explicit parse parameter `String → Option Int`, `none`
standing for JavaScript `NaN` (every `NaN >= x` comparison is false).  The
network and the regex engine are the environment: each scraper takes the
already-captured payload data as input and is otherwise a faithful
translation of the JS control flow.
-/

namespace PoliticalAlpha

/-- JavaScript `\s` for the character set these feeds produce (ASCII white
space); used by the `\s+` collapse and `trim()` steps of `stripHtml`. -/
def isWs (c : Char) : Bool :=
  c = ' ' || c = '\t' || c = '\n' || c = '\r' || c = '\x0b' || c = '\x0c'

/-- Suffix of the list just after the first `'>'`, if any; this is how the
regex `<[^>]*>` finds the end of a tag. -/
def findTagEnd : List Char → Option (List Char)
  | [] => none
  | c :: cs => if c = '>' then some cs else findTagEnd cs

theorem findTagEnd_length {cs rest : List Char} (h : findTagEnd cs = some rest) :
    rest.length ≤ cs.length := by
  induction cs with
  | nil => simp [findTagEnd] at h
  | cons c cs ih =>
    by_cases hc : c = '>'
    · simp [findTagEnd, hc] at h
      simp [← h, Nat.le_succ]
    · simp [findTagEnd, hc] at h
      exact Nat.le_trans (ih h) (Nat.le_succ _)

theorem findTagEnd_suffix {cs rest : List Char} (h : findTagEnd cs = some rest) :
    rest <:+ cs := by
  induction cs with
  | nil => simp [findTagEnd] at h
  | cons c cs ih =>
    by_cases hc : c = '>'
    · simp [findTagEnd, hc] at h
      exact h ▸ (List.suffix_cons c cs)
    · simp [findTagEnd, hc] at h
      exact (ih h).trans (List.suffix_cons c cs)

theorem findTagEnd_none_no_gt {cs : List Char} (h : findTagEnd cs = none) :
    '>' ∉ cs := by
  induction cs with
  | nil => simp
  | cons c cs ih =>
    by_cases hc : c = '>'
    · simp [findTagEnd, hc] at h
    · simp [findTagEnd, hc] at h
      simp [hc, ih h]
      intro hcc
      exact hc hcc.symm

/-- Fuel-driven body of `.replace(/<[^>]*>/g, "")`: drop every span from a
`'<'` to the next `'>'`; a `'<'` with no later `'>'` is not a match and is
kept.  Fuel at least the length of the list makes the fuel case unreachable. -/
def removeTagsF : Nat → List Char → List Char
  | _, [] => []
  | 0, l => l
  | fuel + 1, c :: cs =>
    if c = '<' then
      match findTagEnd cs with
      | some rest => removeTagsF fuel rest
      | none => c :: removeTagsF fuel cs
    else c :: removeTagsF fuel cs

/-- The tag-stripping pass `.replace(/<[^>]*>/g, "")`. -/
def removeTags (l : List Char) : List Char := removeTagsF l.length l

/-- Fuel-driven literal-pattern global replace, scanning left to right
without overlap, exactly as `String.prototype.replace` with a global literal
regex does. -/
def replaceSubF (pat repl : List Char) : Nat → List Char → List Char
  | _, [] => []
  | 0, l => l
  | fuel + 1, c :: cs =>
    if pat ≠ [] ∧ pat.isPrefixOf (c :: cs) then
      repl ++ replaceSubF pat repl fuel ((c :: cs).drop pat.length)
    else c :: replaceSubF pat repl fuel cs

/-- Global replacement of the literal `pat` by `repl`. -/
def replaceSub (pat repl l : List Char) : List Char := replaceSubF pat repl l.length l

/-- Fuel-driven body of `.replace(/\s+/g, " ")`: every maximal run of white
space becomes one `' '`. -/
def collapseWsF : Nat → List Char → List Char
  | _, [] => []
  | 0, l => l
  | fuel + 1, c :: cs =>
    if isWs c then ' ' :: collapseWsF fuel (cs.dropWhile isWs)
    else c :: collapseWsF fuel cs

/-- The `.replace(/\s+/g, " ")` pass. -/
def collapseWs (l : List Char) : List Char := collapseWsF l.length l

/-- Drop trailing white space, the right half of `trim()`. -/
def dropTrailingWs (l : List Char) : List Char := (l.reverse.dropWhile isWs).reverse

/-- JavaScript `trim()`. -/
def trimChars (l : List Char) : List Char := dropTrailingWs (l.dropWhile isWs)

/-- The five entity replaces shared by every `stripHtml` revision, applied in
source order: `&amp;` then `&lt;` then `&gt;` then `&quot;` then `&#39;`. -/
def decodeEntities (l : List Char) : List Char :=
  replaceSub "&#39;".data "'".data
    (replaceSub "&quot;".data "\"".data
      (replaceSub "&gt;".data ">".data
        (replaceSub "&lt;".data "<".data
          (replaceSub "&amp;".data "&".data l))))

/-- Removal of the CDATA markers, the first two replaces of the
src/api/cron.js (rev1) `stripHtml`. -/
def removeCdata (l : List Char) : List Char :=
  replaceSub "]]>".data [] (replaceSub "<![CDATA[".data [] l)

/-- The src/cron.js `stripHtml` (lines 94-104): tags, entities, white-space
collapse, trim — no CDATA handling. -/
def stripHtmlCronL (l : List Char) : List Char :=
  trimChars (collapseWs (decodeEntities (removeTags l)))

/-- The src/api/cron.js (rev1) `stripHtml` (lines 306-319): CDATA markers
first, then the same pipeline. -/
def stripHtmlApiL (l : List Char) : List Char :=
  stripHtmlCronL (removeCdata l)

def stripHtmlCron (s : String) : String := ⟨stripHtmlCronL s.data⟩

def stripHtmlApi (s : String) : String := ⟨stripHtmlApiL s.data⟩

/-!  Data model of src/cron.js: RSS-bridge fallback chain.  -/

/-- One parsed rss-parser feed item, with the fields `scrapeTweets` reads.
A `none` field models an absent property. -/
structure RssItem where
  contentSnippet : Option String
  content : Option String
  title : Option String
  pubDate : Option String
  link : Option String
deriving DecidableEq, Repr

/-- One tweet object built by `scrapeTweets` (src/cron.js lines 71-76). -/
structure Tweet where
  handle : String
  text : String
  date : String
  link : String
deriving DecidableEq, Repr

/-- What one RSS bridge attempt produced: `err` models a thrown/timeout
`parser.parseURL` (the `catch` branch), `ok` a parsed feed with its items. -/
inductive FetchOutcome where
  | err : FetchOutcome
  | ok : List RssItem → FetchOutcome
deriving DecidableEq, Repr

def FetchOutcome.isErr : FetchOutcome → Bool
  | .err => true
  | .ok _ => false

/-- The constant `24 * 60 * 60 * 1000` shared by every revision. -/
def TWENTY_FOUR_HOURS_MS : Int := 24 * 60 * 60 * 1000

/-- JavaScript `a || b` for an optional string `a`: the empty string is falsy. -/
def jsOrS : Option String → String → String
  | some s, b => if s = "" then b else s
  | none, b => b

/-- The value `item.pubDate ? new Date(item.pubDate).getTime() : 0` of
src/cron.js line 65, with `none` for `NaN` (unparseable date). -/
def pubTime (parse : String → Option Int) (i : RssItem) : Option Int :=
  match i.pubDate with
  | none => some 0
  | some s => if s = "" then some 0 else parse s

/-- The 24-hour window predicate `pubDate >= cutoff` of src/cron.js line 66;
a `NaN` time compares false. -/
def keepRecent (parse : String → Option Int) (cutoff : Int) (i : RssItem) : Bool :=
  match pubTime parse i with
  | some t => cutoff ≤ t
  | none => false

/-- The content pick `item.contentSnippet || item.content || item.title || ""`. -/
def contentPick (i : RssItem) : String :=
  jsOrS i.contentSnippet (jsOrS i.content (jsOrS i.title ""))

/-- The tweet object literal of src/cron.js lines 71-76; `now` is the ISO
string `new Date().toISOString()` read at mapping time. -/
def mkTweet (handle now : String) (i : RssItem) : Tweet :=
  { handle := handle
    text := stripHtmlCron (contentPick i)
    date := jsOrS i.pubDate now
    link := jsOrS i.link "" }

/-- The bridge loop of `scrapeTweets` (src/cron.js lines 57-91), over the
sequence of per-bridge outcomes in declared `RSS_BRIDGES` order: a thrown
fetch advances to the next bridge; a parsed feed is terminal — its recent
items are mapped and returned if non-empty, otherwise `[]` is returned at
once; exhaustion of all bridges returns `[]`. -/
def scrapeTweets (handle : String) (parse : String → Option Int) (cutoff : Int)
    (now : String) : List FetchOutcome → List Tweet
  | [] => []
  | .err :: rest => scrapeTweets handle parse cutoff now rest
  | .ok feedItems :: _ =>
    let recent := feedItems.filter (fun i => keepRecent parse cutoff i)
    if recent.isEmpty then [] else recent.map (mkTweet handle now)

/-- The `TARGET_ACCOUNTS` constant of src/cron.js. -/
def TARGET_ACCOUNTS : List String :=
  ["pelositracker", "capitol2iq", "QuiverQuant", "unusual_whales"]

/-- The `{ allTweets, errors }` value returned by `scrapeAllAccounts`. -/
structure ScrapeAllResult where
  allTweets : List Tweet
  errors : List String
deriving DecidableEq, Repr

/-- The orchestrator `scrapeAllAccounts` (src/cron.js lines 110-127);
`outcomes` gives each handle its per-bridge outcome sequence.
`Promise.allSettled` pushes an error label only for a rejected task, and
`scrapeTweets` catches every per-bridge failure and always fulfils (all its
awaited work is inside the `try`), so the rejected branch is unreachable and
`errors` is always empty. -/
def scrapeAllAccounts (parse : String → Option Int) (cutoff : Int) (now : String)
    (outcomes : String → List FetchOutcome) : ScrapeAllResult :=
  { allTweets :=
      (TARGET_ACCOUNTS.map (fun h => scrapeTweets h parse cutoff now (outcomes h))).flatten
    errors := [] }

/-!  Data model of src/api/cron.js (rev1): syndication chain and news feed.  -/

/-- One item of the api revision: `{ source, text, date }`. -/
structure SourceItem where
  source : String
  text : String
  date : String
deriving DecidableEq, Repr

/-- The backup strategy `fetchViaSearchSyndication` (src/api/cron.js rev1
lines 135-159): each regex capture of the `tweet-text` paragraph pattern
becomes an item whose `date` is `new Date().toISOString()` — the current
instant `now`.  A failed fetch or no captures gives `[]`. -/
def searchSyndicationItems (handle now : String) (captures : List String) :
    List SourceItem :=
  captures.map (fun c =>
    { source := "twitter/@" ++ handle, text := stripHtmlApi c, date := now })

/-- One tweet object found in the `__NEXT_DATA__` JSON
(`extractTweetsFromSyndicationData`); `created_at` is `none` when both
`tweet.created_at` and `tweet.createdAt` are absent. -/
structure SynEntry where
  text : String
  created_at : Option String
deriving DecidableEq, Repr

/-- The `created_at: tweet.created_at || tweet.createdAt || new
Date().toISOString()` default of src/api/cron.js rev1 line 126. -/
def synEntryDate (now : String) (e : SynEntry) : String := jsOrS e.created_at now

/-- A successful (`resp.ok`) syndication response, reduced to what the two
extraction passes capture: the JSON tweet entries (or `none` when the
`__NEXT_DATA__` script is missing or `JSON.parse` throws) and the raw texts
captured by the `data-tweet-id` regex fallback. -/
structure SynPayload where
  jsonEntries : Option (List SynEntry)
  htmlCaptures : List String
deriving DecidableEq, Repr

/-- The window comparison `new Date(entry.created_at).getTime() >= cutoff`
on a date string, `none` again modelling `NaN`. -/
def timeOk (parse : String → Option Int) (cutoff : Int) (s : String) : Bool :=
  match parse s with
  | some t => cutoff ≤ t
  | none => false

/-- The chain `fetchViaSyndication` (src/api/cron.js rev1 lines 41-113):
an HTTP failure or thrown fetch (`payload = none`) falls back to the search
strategy; a successful response is mined first from the JSON entries
(window-filtered on their — possibly defaulted — `created_at`), then, if
that produced nothing, from the HTML regex captures (stamped with `now`);
if both passes produce nothing the search strategy is still invoked. -/
def fetchViaSyndication (handle now : String) (parse : String → Option Int)
    (cutoff : Int) (payload : Option SynPayload) (searchCaptures : List String) :
    List SourceItem :=
  match payload with
  | none => searchSyndicationItems handle now searchCaptures
  | some p =>
    let fromJson : List SourceItem :=
      match p.jsonEntries with
      | none => []
      | some es =>
        (es.filter (fun e => timeOk parse cutoff (synEntryDate now e))).map
          (fun e =>
            { source := "twitter/@" ++ handle, text := e.text
              date := synEntryDate now e })
    let tweets :=
      if fromJson.isEmpty then
        p.htmlCaptures.map (fun c =>
          { source := "twitter/@" ++ handle, text := stripHtmlApi c, date := now })
      else fromJson
    if tweets.isEmpty then searchSyndicationItems handle now searchCaptures
    else tweets

/-- One `<item>` block of a Google News RSS response, reduced to the three
captures the code reads (each `none` when its regex does not match). -/
structure RssEntry where
  title : Option String
  pubDate : Option String
  desc : Option String
deriving DecidableEq, Repr

/-- JavaScript `substring(0, n).toLowerCase()` — the dedup key prefix. -/
def takeLower (n : Nat) (s : String) : String := ⟨(s.data.take n).map Char.toLower⟩

/-- The dedup key `item.text.substring(0, n).toLowerCase()`; `n` is 60 in
rev1 (line 291) and 50 in rev2 (line 861). -/
def newsKey (n : Nat) (it : SourceItem) : String := takeLower n it.text

/-- The dedup loop with its `seen` set (modelled as the list of keys added
so far). -/
def dedupAux (n : Nat) (seen : List String) : List SourceItem → List SourceItem
  | [] => []
  | x :: xs =>
    if newsKey n x ∈ seen then dedupAux n seen xs
    else x :: dedupAux n (newsKey n x :: seen) xs

/-- The deduplicator of `fetchGoogleNewsRSS`: keep the first item for each
key in arrival order. -/
def dedupNews (n : Nat) (l : List SourceItem) : List SourceItem := dedupAux n [] l

/-- Item extraction of rev1 `fetchGoogleNewsRSS` (lines 262-281): per entry,
strip title and description, read `pubDate` raw; keep the entry when its
time is inside the window and the title is non-empty; the text is
`` `${title}. ${desc}`.trim() ``. -/
def newsItemsOfEntries (parse : String → Option Int) (cutoff : Int)
    (entries : List RssEntry) : List SourceItem :=
  entries.filterMap (fun e =>
    let title := match e.title with
      | some t => stripHtmlApi t
      | none => ""
    let pd := match e.pubDate with
      | some d => d
      | none => ""
    let desc := match e.desc with
      | some d => stripHtmlApi d
      | none => ""
    let itemTime : Option Int := if pd = "" then some 0 else parse pd
    let keep := match itemTime with
      | some t => cutoff ≤ t
      | none => false
    if keep && (title != "") then
      some { source := "Google News"
             text := ⟨trimChars (title ++ ". " ++ desc).data⟩
             date := pd }
    else none)

/-- Item extraction of rev2 `fetchGoogleNewsRSS` (lines 835-851): title only,
`pubDate` trimmed, source label `"News"`. -/
def newsTitleItems (parse : String → Option Int) (cutoff : Int)
    (entries : List RssEntry) : List SourceItem :=
  entries.filterMap (fun e =>
    let title := match e.title with
      | some t => stripHtmlApi t
      | none => ""
    let pd := match e.pubDate with
      | some d => ⟨trimChars d.data⟩
      | none => ""
    let itemTime : Option Int := if pd = "" then some 0 else parse pd
    let keep := match itemTime with
      | some t => cutoff ≤ t
      | none => false
    if keep && (title != "") then
      some { source := "News", text := title, date := pd }
    else none)

/-- Rev1 `fetchGoogleNewsRSS` tail (lines 287-300): dedup with the 60-char
key, then `slice(0, 15)`. -/
def googleNewsRev1 (parse : String → Option Int) (cutoff : Int)
    (entries : List RssEntry) : List SourceItem :=
  (dedupNews 60 (newsItemsOfEntries parse cutoff entries)).take 15

/-- Rev2 `fetchGoogleNewsRSS` tail (lines 857-870): dedup with the 50-char
key, then `slice(0, 10)`. -/
def googleNewsRev2 (parse : String → Option Int) (cutoff : Int)
    (entries : List RssEntry) : List SourceItem :=
  (dedupNews 50 (newsTitleItems parse cutoff entries)).take 10

/-!  Lemmas about the deduplicator.  -/

theorem dedupAux_congr (n : Nat) (l : List SourceItem) :
    ∀ s s' : List String, (∀ a, a ∈ s ↔ a ∈ s') →
      dedupAux n s l = dedupAux n s' l := by
  induction l with
  | nil => intro s s' _; rfl
  | cons x xs ih =>
    intro s s' hss
    by_cases hx : newsKey n x ∈ s
    · rw [dedupAux, dedupAux, if_pos hx, if_pos ((hss _).mp hx)]
      exact ih s s' hss
    · have hx' : newsKey n x ∉ s' := fun hc => hx ((hss _).mpr hc)
      rw [dedupAux, dedupAux, if_neg hx, if_neg hx']
      refine congrArg _ (ih _ _ ?_)
      intro a
      simp only [List.mem_cons]
      exact or_congr Iff.rfl (hss a)

theorem dedupAux_irrelevant_key (n : Nat) (l : List SourceItem) :
    ∀ (s : List String) (k : String), (∀ y ∈ l, newsKey n y ≠ k) →
      dedupAux n (k :: s) l = dedupAux n s l := by
  induction l with
  | nil => intro s k _; rfl
  | cons x xs ih =>
    intro s k hk
    have hxk : newsKey n x ≠ k := hk x (List.mem_cons_self x xs)
    have hmem : newsKey n x ∈ k :: s ↔ newsKey n x ∈ s := by
      simp [List.mem_cons, hxk]
    by_cases hx : newsKey n x ∈ s
    · rw [dedupAux, dedupAux, if_pos (hmem.mpr hx), if_pos hx]
      exact ih s k (fun y hy => hk y (List.mem_cons_of_mem x hy))
    · rw [dedupAux, dedupAux, if_neg (fun hc => hx (hmem.mp hc)), if_neg hx]
      refine congrArg _ ?_
      calc dedupAux n (newsKey n x :: k :: s) xs
          = dedupAux n (k :: newsKey n x :: s) xs := by
            refine dedupAux_congr n xs _ _ ?_
            intro a; simp [List.mem_cons]; tauto
        _ = dedupAux n (newsKey n x :: s) xs :=
            ih _ k (fun y hy => hk y (List.mem_cons_of_mem x hy))

theorem dedupAux_filter_seen_key (n : Nat) (l : List SourceItem) :
    ∀ (s : List String) (k : String), k ∈ s →
      dedupAux n s l = dedupAux n s (l.filter (fun y => newsKey n y != k)) := by
  induction l with
  | nil => intro s k _; rfl
  | cons x xs ih =>
    intro s k hks
    by_cases hxk : newsKey n x = k
    · have hxs : newsKey n x ∈ s := hxk ▸ hks
      rw [dedupAux, if_pos hxs]
      have : (List.filter (fun y => newsKey n y != k) (x :: xs))
          = xs.filter (fun y => newsKey n y != k) := by
        simp [List.filter, hxk]
      rw [this]
      exact ih s k hks
    · have : (List.filter (fun y => newsKey n y != k) (x :: xs))
          = x :: xs.filter (fun y => newsKey n y != k) := by
        simp [List.filter_cons, hxk]
      rw [this]
      by_cases hx : newsKey n x ∈ s
      · rw [dedupAux, dedupAux, if_pos hx, if_pos hx]
        exact ih s k hks
      · rw [dedupAux, dedupAux, if_neg hx, if_neg hx]
        exact congrArg _ (ih _ k (List.mem_cons_of_mem _ hks))

/-- The head equation of the deduplicator: the first arrival is kept, every
later item sharing its key is discarded, and the rest is deduplicated. -/
theorem dedupNews_cons (n : Nat) (x : SourceItem) (xs : List SourceItem) :
    dedupNews n (x :: xs)
      = x :: dedupNews n (xs.filter (fun y => newsKey n y != newsKey n x)) := by
  unfold dedupNews
  rw [dedupAux, if_neg (List.not_mem_nil _)]
  refine congrArg _ ?_
  rw [dedupAux_filter_seen_key n xs [newsKey n x] (newsKey n x)
        (List.mem_singleton.mpr rfl)]
  refine dedupAux_irrelevant_key n _ [] (newsKey n x) ?_
  intro y hy
  have := List.of_mem_filter hy
  exact bne_iff_ne.mp this

theorem dedupAux_keys_nodup (n : Nat) (l : List SourceItem) :
    ∀ s : List String,
      ((dedupAux n s l).map (newsKey n)).Nodup
        ∧ ∀ y ∈ dedupAux n s l, newsKey n y ∉ s := by
  induction l with
  | nil => intro s; exact ⟨List.nodup_nil, by intro y hy; simp [dedupAux] at hy⟩
  | cons x xs ih =>
    intro s
    by_cases hx : newsKey n x ∈ s
    · rw [dedupAux, if_pos hx]; exact ih s
    · rw [dedupAux, if_neg hx]
      obtain ⟨hnd, hnotin⟩ := ih (newsKey n x :: s)
      constructor
      · rw [List.map_cons, List.nodup_cons]
        refine ⟨?_, hnd⟩
        intro hc
        obtain ⟨y, hy, hky⟩ := List.mem_map.mp hc
        exact hnotin y hy (hky ▸ List.mem_cons_self _ _)
      · intro y hy
        rcases List.mem_cons.mp hy with h | h
        · exact h ▸ hx
        · intro hc
          exact hnotin y h (List.mem_cons_of_mem _ hc)

/-- A list whose keys are already pairwise distinct is left unchanged. -/
theorem dedupNews_of_nodup_keys (n : Nat) :
    ∀ l : List SourceItem, (l.map (newsKey n)).Nodup → dedupNews n l = l := by
  intro l
  induction l with
  | nil => intro _; rfl
  | cons x xs ih =>
    intro hnd
    rw [List.map_cons, List.nodup_cons] at hnd
    unfold dedupNews
    rw [dedupAux, if_neg (List.not_mem_nil _)]
    refine congrArg _ ?_
    rw [dedupAux_irrelevant_key n xs [] (newsKey n x) ?_]
    · exact ih hnd.2
    · intro y hy hc
      exact hnd.1 (hc ▸ List.mem_map_of_mem (newsKey n) hy)

/-- Running the deduplicator on its own output changes nothing. -/
theorem dedupNews_idem (n : Nat) (l : List SourceItem) :
    dedupNews n (dedupNews n l) = dedupNews n l :=
  dedupNews_of_nodup_keys n _ (dedupAux_keys_nodup n l []).1

/-- C7: the deduplicator keeps exactly the first arrival of each
normalization key (the `n`-character lower-cased prefix of `text`, `n` = 60
in rev1 and 50 in rev2): its head equation peels the first item and discards
every later item sharing its key; and it is idempotent. -/
theorem c7_dedup_first_occurrence_idempotent (n : Nat) (x : SourceItem)
    (xs l : List SourceItem) :
    dedupNews n (x :: xs)
        = x :: dedupNews n (xs.filter (fun y => newsKey n y != newsKey n x))
      ∧ dedupNews n (dedupNews n l) = dedupNews n l :=
  ⟨dedupNews_cons n x xs, dedupNews_idem n l⟩

/-!  Lemmas about the bridge fallback chain of src/cron.js.  -/

theorem scrapeTweets_all_err (handle : String) (parse : String → Option Int)
    (cutoff : Int) (now : String) :
    ∀ outs : List FetchOutcome, outs.all FetchOutcome.isErr = true →
      scrapeTweets handle parse cutoff now outs = [] := by
  intro outs
  induction outs with
  | nil => intro _; rfl
  | cons o rest ih =>
    intro hall
    rw [List.all_cons, Bool.and_eq_true] at hall
    cases o with
    | err => exact ih hall.2
    | ok items => simp [FetchOutcome.isErr] at hall

theorem mem_scrapeTweets (handle : String) (parse : String → Option Int)
    (cutoff : Int) (now : String) :
    ∀ (outs : List FetchOutcome) (t : Tweet),
      t ∈ scrapeTweets handle parse cutoff now outs →
        ∃ i : RssItem, keepRecent parse cutoff i = true ∧ t = mkTweet handle now i := by
  intro outs
  induction outs with
  | nil => intro t ht; simp [scrapeTweets] at ht
  | cons o rest ih =>
    intro t ht
    cases o with
    | err => exact ih t ht
    | ok items =>
      rw [scrapeTweets] at ht
      by_cases hemp : (items.filter (fun i => keepRecent parse cutoff i)).isEmpty
      · rw [if_pos hemp] at ht
        simp at ht
      · rw [if_neg hemp] at ht
        obtain ⟨i, hi, hti⟩ := List.mem_map.mp ht
        exact ⟨i, by simpa using (List.mem_filter.mp hi).2, hti.symm⟩

/-- C5: when the first non-failing bridge of the chain yields a non-empty
list of recent items, exactly that list (mapped to tweet objects) is the
chain's result, whatever the later bridges would have produced — they are
never consulted (`rest` is arbitrary on the left and absent on the right). -/
theorem c5_first_nonempty_short_circuit (handle : String)
    (parse : String → Option Int) (cutoff : Int) (now : String)
    (pre : List FetchOutcome) (items : List RssItem) (rest : List FetchOutcome)
    (hpre : pre.all FetchOutcome.isErr = true)
    (hne : items.filter (fun i => keepRecent parse cutoff i) ≠ []) :
    scrapeTweets handle parse cutoff now (pre ++ .ok items :: rest)
      = (items.filter (fun i => keepRecent parse cutoff i)).map (mkTweet handle now) := by
  induction pre with
  | nil =>
    rw [List.nil_append, scrapeTweets]
    rw [if_neg (by simpa [List.isEmpty_iff] using hne)]
  | cons o pre' ih =>
    rw [List.all_cons, Bool.and_eq_true] at hpre
    cases o with
    | err => rw [List.cons_append, scrapeTweets]; exact ih hpre.2
    | ok _ => simp [FetchOutcome.isErr] at hpre

/-- Parse oracle used by concrete runs: only the date string "t1" parses,
to time 100. -/
def fixedParse : String → Option Int := fun s => if s = "t1" then some 100 else none

/-- A feed item carrying only a recent date, no content fields. -/
def bareItem : RssItem :=
  { contentSnippet := none, content := none, title := none
    pubDate := some "t1", link := none }

/-- A feed item with content and a recent date. -/
def fullItem : RssItem :=
  { contentSnippet := some "hello world", content := none, title := none
    pubDate := some "t1", link := some "L" }

/-- Witness for C5: one failed bridge, then a bridge with one recent item;
a further bridge with a different item is present but ignored. -/
theorem c5_witness :
    ([FetchOutcome.err].all FetchOutcome.isErr = true
        ∧ [fullItem].filter (fun i => keepRecent fixedParse 1 i) ≠ [])
      ∧ scrapeTweets "pelositracker" fixedParse 1 "NOW"
          ([.err] ++ .ok [fullItem] :: [.ok [bareItem]])
        = ([fullItem].filter (fun i => keepRecent fixedParse 1 i)).map
            (mkTweet "pelositracker" "NOW") :=
  ⟨⟨by decide, by decide⟩,
    c5_first_nonempty_short_circuit "pelositracker" fixedParse 1 "NOW"
      [.err] [fullItem] [.ok [bareItem]] (by decide) (by decide)⟩

/-- C4 counterexample: in the syndication chain of src/api/cron.js (rev1), a
transport-successful response whose extraction passes yield zero items does
NOT terminate the chain: the search strategy is still invoked and its item
is returned.  The claim says such an attempt ends the chain with an empty
result without invoking any later strategy. -/
theorem c4_counterexample :
    fetchViaSyndication "a" "NOW" fixedParse 1
        (some { jsonEntries := some [], htmlCaptures := [] }) ["fallback"]
      = [{ source := "twitter/@a", text := "fallback", date := "NOW" }] := by
  decide

/-- C4 amended: in the RSS-bridge chain of src/cron.js the claim holds — a
failed bridge advances to the next one, and a parsed feed with zero recent
items ends the chain with `[]` whatever bridges remain; but in the
syndication chain of src/api/cron.js (rev1) a transport-successful attempt
with zero extracted items falls through to the search strategy instead. -/
theorem c4_fallback_and_empty_terminal (handle : String)
    (parse : String → Option Int) (cutoff : Int) (now : String)
    (rest : List FetchOutcome) (items : List RssItem) (caps : List String) :
    (scrapeTweets handle parse cutoff now (.err :: rest)
        = scrapeTweets handle parse cutoff now rest)
      ∧ (items.filter (fun i => keepRecent parse cutoff i) = [] →
          scrapeTweets handle parse cutoff now (.ok items :: rest) = [])
      ∧ fetchViaSyndication handle now parse cutoff
            (some { jsonEntries := some [], htmlCaptures := [] }) caps
          = searchSyndicationItems handle now caps := by
  refine ⟨rfl, ?_, rfl⟩
  intro hemp
  rw [scrapeTweets, if_pos (by simp [hemp])]

/-- Witness for C4: a feed whose only item is stale yields `[]`, even though
a later bridge holds a recent item. -/
theorem c4_witness :
    ([fullItem].filter (fun i => keepRecent fixedParse 200 i) = [])
      ∧ scrapeTweets "capitol2iq" fixedParse 200 "NOW"
          (.ok [fullItem] :: [.ok [fullItem]]) = [] :=
  ⟨by decide,
    (c4_fallback_and_empty_terminal "capitol2iq" fixedParse 200 "NOW"
        [.ok [fullItem]] [fullItem] []).2.1 (by decide)⟩

/-- Per-handle outcome table where every bridge fails. -/
def allErrOutcomes : String → List FetchOutcome := fun _ => [.err, .err, .err, .err]

/-- C1 counterexample: with every bridge failing for every handle, the run's
`errors` list is empty — the exhausted source's label appears zero times,
not exactly once as claimed (`scrapeTweets` swallows the exhaustion and
fulfils with `[]`, and `scrapeAllAccounts` records labels only for rejected
tasks). -/
theorem c1_counterexample :
    (scrapeAllAccounts fixedParse 1 "NOW" allErrOutcomes).errors = []
      ∧ (scrapeAllAccounts fixedParse 1 "NOW" allErrOutcomes).allTweets = []
      ∧ ((scrapeAllAccounts fixedParse 1 "NOW" allErrOutcomes).errors.length = 0) := by
  refine ⟨rfl, ?_, rfl⟩
  decide

/-- C1 amended: when every bridge of a handle's chain fails, no tweet of
that handle appears in the merged result — but the handle is NOT reported:
`errors` is empty, because source exhaustion never rejects the per-handle
task. -/
theorem c1_exhausted_chain_silent (parse : String → Option Int) (cutoff : Int)
    (now : String) (outcomes : String → List FetchOutcome) (h : String)
    (hall : (outcomes h).all FetchOutcome.isErr = true) :
    (scrapeAllAccounts parse cutoff now outcomes).errors = []
      ∧ ∀ t ∈ (scrapeAllAccounts parse cutoff now outcomes).allTweets,
          t.handle ≠ h := by
  refine ⟨rfl, ?_⟩
  intro t ht hth
  simp only [scrapeAllAccounts, List.mem_flatten, List.mem_map] at ht
  obtain ⟨l, ⟨h', _, hl⟩, htl⟩ := ht
  obtain ⟨i, _, hti⟩ := mem_scrapeTweets h' parse cutoff now (outcomes h') t (hl ▸ htl)
  have hh' : h' = h := by rw [hti] at hth; exact hth
  rw [← hl, hh', scrapeTweets_all_err h parse cutoff now (outcomes h) hall] at htl
  exact (List.not_mem_nil t) htl

/-- Witness for C1 amended: all four bridges fail for every handle. -/
theorem c1_witness :
    ((allErrOutcomes "pelositracker").all FetchOutcome.isErr = true)
      ∧ ((scrapeAllAccounts fixedParse 1 "NOW" allErrOutcomes).errors = []
          ∧ ∀ t ∈ (scrapeAllAccounts fixedParse 1 "NOW" allErrOutcomes).allTweets,
              t.handle ≠ "pelositracker") :=
  ⟨by decide,
    c1_exhausted_chain_silent fixedParse 1 "NOW" allErrOutcomes "pelositracker"
      (by decide)⟩

/-!  C2: the 24-hour window.  -/

/-- Parse oracle whose only valid date string lies one hour in the future of
the instant 172800000 ms. -/
def futureParse : String → Option Int :=
  fun s => if s = "future" then some 176400000 else none

/-- A feed item dated one hour into the future. -/
def futureItem : RssItem :=
  { contentSnippet := some "x", content := none, title := none
    pubDate := some "future", link := none }

/-- C2 counterexample: with `now` = 172800000 ms and the source cutoff
`now - 24h`, the window filter of src/cron.js keeps an item whose parsed
timestamp is 176400000 ms — strictly greater than `now`.  The claim's upper
bound `t ≤ now` does not hold: the filter only checks `pubDate >= cutoff`. -/
theorem c2_counterexample :
    keepRecent futureParse (172800000 - TWENTY_FOUR_HOURS_MS) futureItem = true
      ∧ futureParse "future" = some 176400000
      ∧ (172800000 : Int) < 176400000 := by
  refine ⟨by decide, rfl, by decide⟩

/-- C2 amended: every item kept by the window filter has a present,
non-empty, parseable `pubDate` whose time is at least `now - 24h` (given a
positive cutoff, i.e. any realistic clock); no upper bound is enforced. -/
theorem c2_window_lower_bound (parse : String → Option Int) (cutoff : Int)
    (i : RssItem) (hc : 0 < cutoff) (hk : keepRecent parse cutoff i = true) :
    ∃ s t, i.pubDate = some s ∧ s ≠ "" ∧ parse s = some t ∧ cutoff ≤ t := by
  cases hpd : i.pubDate with
  | none =>
    simp [keepRecent, pubTime, hpd] at hk
    omega
  | some s =>
    by_cases hs : s = ""
    · simp [keepRecent, pubTime, hpd, hs] at hk
      omega
    · cases hps : parse s with
      | none => simp [keepRecent, pubTime, hpd, hs, hps] at hk
      | some t =>
        simp [keepRecent, pubTime, hpd, hs, hps] at hk
        exact ⟨s, t, rfl, hs, hps, hk⟩

/-- Witness for C2 amended at a concrete kept item. -/
theorem c2_witness :
    ((0 : Int) < 1 ∧ keepRecent fixedParse 1 fullItem = true)
      ∧ ∃ s t, fullItem.pubDate = some s ∧ s ≠ "" ∧ fixedParse s = some t ∧ 1 ≤ t :=
  ⟨⟨by decide, by decide⟩,
    c2_window_lower_bound fixedParse 1 fullItem (by decide) (by decide)⟩

/-!  C3: fabricated timestamps.  -/

/-- C3 counterexample: the HTML-regex fallback of `fetchViaSyndication`
(src/api/cron.js rev1 lines 87-99) emits items with no per-item timestamp in
the payload, stamped `date: new Date().toISOString()` — the current instant
is substituted, which the claim says never happens. -/
theorem c3_counterexample :
    fetchViaSyndication "a" "2026-02-27T08:00:00.000Z" fixedParse 1
        (some { jsonEntries := none, htmlCaptures := ["hi"] }) []
      = [{ source := "twitter/@a", text := "hi", date := "2026-02-27T08:00:00.000Z" }] := by
  decide

/-- C3 amended: every extraction path that lacks a per-item timestamp stamps
the current instant instead of an unknown marker — the search-syndication
items, the HTML-regex fallback items, and a JSON entry whose `created_at`
is absent all carry `now` as their date. -/
theorem c3_fallback_items_stamped_now :
    (∀ (h now : String) (caps : List String) (it : SourceItem),
        it ∈ searchSyndicationItems h now caps → it.date = now)
      ∧ (∀ (now : String) (e : SynEntry), e.created_at = none →
          synEntryDate now e = now)
      ∧ (∀ (h now : String) (parse : String → Option Int) (cutoff : Int)
            (caps : List String) (it : SourceItem),
          it ∈ fetchViaSyndication h now parse cutoff
              (some { jsonEntries := none, htmlCaptures := caps }) [] →
            it.date = now) := by
  refine ⟨?_, ?_, ?_⟩
  · intro h now caps it hit
    obtain ⟨c, _, hc⟩ := List.mem_map.mp hit
    rw [← hc]
  · intro now e he
    rw [synEntryDate, he]
    rfl
  · intro h now parse cutoff caps it hit
    cases caps with
    | nil => simp [fetchViaSyndication, searchSyndicationItems] at hit
    | cons c cs =>
      rw [fetchViaSyndication] at hit
      simp only [List.isEmpty_nil, if_true] at hit
      rw [if_neg (by simp [List.isEmpty_cons])] at hit
      obtain ⟨x, _, hx⟩ := List.mem_map.mp hit
      rw [← hx]

/-- Witness for C3 amended: a concrete search-syndication item. -/
theorem c3_witness :
    ({ source := "twitter/@a", text := "x", date := "NOW" } : SourceItem)
        ∈ searchSyndicationItems "a" "NOW" ["x"]
      ∧ ({ source := "twitter/@a", text := "x", date := "NOW" } : SourceItem).date
          = "NOW" :=
  ⟨by decide,
    c3_fallback_items_stamped_now.1 "a" "NOW" ["x"]
      { source := "twitter/@a", text := "x", date := "NOW" } (by decide)⟩

/-!  C8: the 55-character dedup scenario.  -/

/-- Fifty-five characters shared by the two counterexample headlines. -/
def sharedPrefix55 : String :=
  "Congress stock trading report: lawmakers bought shares."

/-- First headline: the shared 55 characters, then "0". -/
def cexText0 : String := sharedPrefix55 ++ "0"

/-- Second headline: the shared 55 characters, then "1". -/
def cexText1 : String := sharedPrefix55 ++ "1"

/-- C8 counterexample: the rev1 deduplicator (key = first 60 characters,
src/api/cron.js line 291) keeps BOTH items of a pair that agrees
case-insensitively on its first 55 characters but differs at character 56 —
the claim's promised output length 1 fails there. -/
theorem c8_counterexample :
    takeLower 55 cexText0 = takeLower 55 cexText1
      ∧ (dedupNews 60
            [{ source := "Google News", text := cexText0, date := "d" },
             { source := "Google News", text := cexText1, date := "d" }]).length
          = 2 := by
  refine ⟨by decide, by decide⟩

/-- C8 amended: agreement on the lower-cased 55-character prefix guarantees
a single survivor only for the rev2 deduplicator, whose key is the first 50
characters (a prefix of the agreeing region); the rev1 60-character key can
separate such a pair. -/
theorem c8_prefix55_dedup_rev2 (a b : SourceItem)
    (h : takeLower 55 a.text = takeLower 55 b.text) :
    (dedupNews 50 [a, b]).length = 1 := by
  have hd : (a.text.data.take 55).map Char.toLower
      = (b.text.data.take 55).map Char.toLower := by
    have := congrArg String.data h
    simpa [takeLower] using this
  have hkey : ∀ s : String, (s.data.take 50).map Char.toLower
      = ((s.data.take 55).map Char.toLower).take 50 := by
    intro s
    rw [← List.map_take, List.take_take]
    norm_num
  have hk : newsKey 50 b = newsKey 50 a := by
    unfold newsKey takeLower
    refine congrArg String.mk ?_
    rw [hkey, hkey, hd]
  rw [dedupNews_cons]
  have : ([b].filter (fun y => newsKey 50 y != newsKey 50 a)) = [] := by
    simp [List.filter_cons, hk]
  rw [this]
  rfl

/-- Witness for C8 amended: two items with literally equal text. -/
theorem c8_witness :
    takeLower 55 "same headline" = takeLower 55 "same headline"
      ∧ (dedupNews 50
            [{ source := "News", text := "same headline", date := "a" },
             { source := "News", text := "same headline", date := "b" }]).length
          = 1 :=
  ⟨rfl,
    c8_prefix55_dedup_rev2
      { source := "News", text := "same headline", date := "a" }
      { source := "News", text := "same headline", date := "b" } rfl⟩

/-!  C9: item field invariants.  -/

/-- C9 counterexample: a feed item inside the window but with no
content/snippet/title yields a tweet whose `text` is the empty string — the
claim says no extraction path can emit an empty text. -/
theorem c9_counterexample :
    scrapeTweets "pelositracker" fixedParse 1 "NOW" [.ok [bareItem]]
      = [{ handle := "pelositracker", text := "", date := "t1", link := "" }] := by
  decide

/-- C9 amended: every emitted tweet carries the chain's handle as its source
identifier and a text that is the stripHtml normalization of the picked
payload field (hence HTML-tag-free, but possibly empty); every
search-syndication item carries the non-empty label `twitter/@handle`. -/
theorem c9_source_present_text_normalized :
    (∀ (h : String) (parse : String → Option Int) (cutoff : Int) (now : String)
        (outs : List FetchOutcome) (t : Tweet),
      t ∈ scrapeTweets h parse cutoff now outs →
        t.handle = h ∧ ∃ raw, t.text = stripHtmlCron raw)
      ∧ (∀ (h now : String) (caps : List String) (it : SourceItem),
          it ∈ searchSyndicationItems h now caps →
            it.source = "twitter/@" ++ h ∧ it.source ≠ "") := by
  constructor
  · intro h parse cutoff now outs t ht
    obtain ⟨i, _, hti⟩ := mem_scrapeTweets h parse cutoff now outs t ht
    exact ⟨by rw [hti]; rfl, contentPick i, by rw [hti]; rfl⟩
  · intro h now caps it hit
    obtain ⟨c, _, hc⟩ := List.mem_map.mp hit
    have hsrc : it.source = "twitter/@" ++ h := by rw [← hc]
    refine ⟨hsrc, ?_⟩
    intro hemp
    rw [hsrc] at hemp
    have := congrArg String.length hemp
    have h9 : ("twitter/@" : String).length = 9 := rfl
    have h0 : ("" : String).length = 0 := rfl
    rw [String.length_append, h9, h0] at this
    omega

/-- Witness for C9 amended: the tweet emitted in the C9 run. -/
theorem c9_witness :
    ({ handle := "pelositracker", text := "", date := "t1", link := "" } : Tweet)
        ∈ scrapeTweets "pelositracker" fixedParse 1 "NOW" [.ok [bareItem]]
      ∧ ({ handle := "pelositracker", text := "", date := "t1", link := "" } : Tweet).handle
            = "pelositracker"
        ∧ ∃ raw,
            ({ handle := "pelositracker", text := "", date := "t1", link := "" } : Tweet).text
              = stripHtmlCron raw :=
  ⟨by decide,
    c9_source_present_text_normalized.1 "pelositracker" fixedParse 1 "NOW"
      [.ok [bareItem]]
      { handle := "pelositracker", text := "", date := "t1", link := "" }
      (by decide)⟩

/-!  C6: properties of the stripHtml normalization.  -/

/-- No `'<'` in the list is followed (anywhere later) by a `'>'`, so no
substring of the form `<...>` remains. -/
def tagFree : List Char → Bool
  | [] => true
  | c :: cs => if c = '<' then (!cs.any (fun d => d = '>')) && tagFree cs else tagFree cs

/-- No two adjacent white-space characters. -/
def noAdjWs : List Char → Bool
  | [] => true
  | [_] => true
  | a :: b :: r => (!(isWs a && isWs b)) && noAdjWs (b :: r)

/-- Every white-space character is a plain space. -/
def wsOnlySpace (l : List Char) : Bool := l.all (fun c => !isWs c || c = ' ')

/-- Neither end of the list is white space. -/
def trimmedEnds (l : List Char) : Bool :=
  (match l.head? with
    | some c => !isWs c
    | none => true)
  && (match l.getLast? with
      | some c => !isWs c
      | none => true)

theorem removeTagsF_sublist : ∀ (fuel : Nat) (l : List Char),
    List.Sublist (removeTagsF fuel l) l := by
  intro fuel
  induction fuel with
  | zero =>
    intro l
    cases l with
    | nil => simp [removeTagsF]
    | cons c cs => simp [removeTagsF]
  | succ f ih =>
    intro l
    cases l with
    | nil => simp [removeTagsF]
    | cons c cs =>
      simp only [removeTagsF]
      by_cases hc : c = '<'
      · rw [if_pos hc]
        cases hf : findTagEnd cs with
        | some rest =>
          exact ((ih rest).trans (findTagEnd_suffix hf).sublist).trans
            (List.sublist_cons_self c cs)
        | none => exact List.Sublist.cons₂ c (ih cs)
      · rw [if_neg hc]
        exact List.Sublist.cons₂ c (ih cs)

theorem tagFree_removeTagsF : ∀ (fuel : Nat) (l : List Char), l.length ≤ fuel →
    tagFree (removeTagsF fuel l) = true := by
  intro fuel
  induction fuel with
  | zero =>
    intro l hl
    have : l = [] := List.length_eq_zero.mp (Nat.le_zero.mp hl)
    subst this
    rfl
  | succ f ih =>
    intro l hl
    cases l with
    | nil => rfl
    | cons c cs =>
      have hcs : cs.length ≤ f := by
        simp [List.length_cons] at hl
        omega
      simp only [removeTagsF]
      by_cases hc : c = '<'
      · rw [if_pos hc]
        cases hf : findTagEnd cs with
        | some rest => exact ih rest (Nat.le_trans (findTagEnd_length hf) hcs)
        | none =>
          subst hc
          have hnog : '>' ∉ cs := findTagEnd_none_no_gt hf
          have hnoX : '>' ∉ removeTagsF f cs := fun hmem =>
            hnog ((removeTagsF_sublist f cs).subset hmem)
          have hany : (removeTagsF f cs).any (fun d => d = '>') = false := by
            cases hany : (removeTagsF f cs).any (fun d => d = '>') with
            | false => rfl
            | true =>
              obtain ⟨x, hx1, hx2⟩ := List.any_eq_true.mp hany
              exact (hnoX ((of_decide_eq_true hx2) ▸ hx1)).elim
          simp only [tagFree, if_pos rfl, hany, Bool.not_false, Bool.true_and]
          exact ih cs hcs
      · rw [if_neg hc]
        simp only [tagFree, if_neg hc]
        exact ih cs hcs

/-- The tag-stripping pass leaves no `'<'` that is still followed by a
`'>'` (entity decoding afterwards may reintroduce angle brackets). -/
theorem tagFree_removeTags (l : List Char) : tagFree (removeTags l) = true :=
  tagFree_removeTagsF l.length l (Nat.le_refl _)

theorem head_dropWhile_not_ws : ∀ (l : List Char) (a : Char),
    (l.dropWhile isWs).head? = some a → isWs a = false := by
  intro l
  induction l with
  | nil => intro a h; simp [List.dropWhile] at h
  | cons c cs ih =>
    intro a h
    by_cases hc : isWs c
    · rw [List.dropWhile_cons, if_pos hc] at h
      exact ih a h
    · rw [List.dropWhile_cons, if_neg hc] at h
      simp at h
      rw [← h]
      exact Bool.not_eq_true _ ▸ (by simpa using hc)

theorem length_dropWhile_ws_le (l : List Char) :
    (l.dropWhile isWs).length ≤ l.length := by
  have h := congrArg List.length (List.takeWhile_append_dropWhile isWs l)
  rw [List.length_append] at h
  omega

theorem collapseWsF_props : ∀ (fuel : Nat) (l : List Char), l.length ≤ fuel →
    noAdjWs (collapseWsF fuel l) = true
      ∧ wsOnlySpace (collapseWsF fuel l) = true
      ∧ ∀ c cs, l = c :: cs →
          ∃ d ds, collapseWsF fuel l = d :: ds ∧ isWs d = isWs c := by
  intro fuel
  induction fuel with
  | zero =>
    intro l hl
    have : l = [] := List.length_eq_zero.mp (Nat.le_zero.mp hl)
    subst this
    exact ⟨rfl, rfl, fun c cs h => by simp at h⟩
  | succ f ih =>
    intro l hl
    cases l with
    | nil => exact ⟨rfl, rfl, fun c cs h => by simp at h⟩
    | cons c cs =>
      have hcs : cs.length ≤ f := by
        simp [List.length_cons] at hl
        omega
      by_cases hw : isWs c
      · have hm : (cs.dropWhile isWs).length ≤ f :=
          Nat.le_trans (length_dropWhile_ws_le cs) hcs
        obtain ⟨ihA, ihB, ihC⟩ := ih (cs.dropWhile isWs) hm
        have hout : collapseWsF (f + 1) (c :: cs)
            = ' ' :: collapseWsF f (cs.dropWhile isWs) := by
          simp only [collapseWsF, if_pos hw]
        refine ⟨?_, ?_, ?_⟩
        · rw [hout]
          cases hX : collapseWsF f (cs.dropWhile isWs) with
          | nil => rfl
          | cons d ds =>
            have hmne : cs.dropWhile isWs ≠ [] := by
              intro hnil
              rw [hnil] at hX
              simp [collapseWsF] at hX
            obtain ⟨e, es, he⟩ := List.exists_cons_of_ne_nil hmne
            obtain ⟨d', ds', hd', hwd'⟩ := ihC e es he
            rw [hX] at hd'
            have hde : d = d' := (List.cons_eq_cons.mp hd').1
            have hwe : isWs e = false :=
              head_dropWhile_not_ws cs e (by rw [he]; rfl)
            have hwd : isWs d = false := by rw [hde, hwd', hwe]
            simp only [noAdjWs, hwd, Bool.and_false, Bool.not_false,
              Bool.true_and]
            rw [← hX]
            exact ihA
        · rw [hout]
          rw [wsOnlySpace, List.all_cons]
          rw [Bool.and_eq_true]
          exact ⟨by decide, ihB⟩
        · intro c' cs' hc'
          refine ⟨' ', collapseWsF f (cs.dropWhile isWs), hout, ?_⟩
          have : c' = c := by injection hc' with h1 _; exact h1.symm
          rw [this, hw]
          rfl
      · obtain ⟨ihA, ihB, ihC⟩ := ih cs hcs
        have hout : collapseWsF (f + 1) (c :: cs) = c :: collapseWsF f cs := by
          simp only [collapseWsF, if_neg hw]
        refine ⟨?_, ?_, ?_⟩
        · rw [hout]
          cases hX : collapseWsF f cs with
          | nil => rfl
          | cons d ds =>
            have hwc : isWs c = false := Bool.not_eq_true _ ▸ (by simpa using hw)
            simp only [noAdjWs, hwc, Bool.false_and, Bool.not_false,
              Bool.true_and]
            rw [← hX]
            exact ihA
        · rw [hout, wsOnlySpace, List.all_cons]
          have hwc : isWs c = false := Bool.not_eq_true _ ▸ (by simpa using hw)
          rw [Bool.and_eq_true]
          exact ⟨by simp [hwc], ihB⟩
        · intro c' cs' hc'
          have : c' = c := by injection hc' with h1 _; exact h1.symm
          exact ⟨c, collapseWsF f cs, hout, by rw [this]⟩

theorem noAdjWs_tail {a : Char} {l : List Char} (h : noAdjWs (a :: l) = true) :
    noAdjWs l = true := by
  cases l with
  | nil => rfl
  | cons b r =>
    simp only [noAdjWs, Bool.and_eq_true] at h
    exact h.2

theorem noAdjWs_append_right : ∀ l t : List Char,
    noAdjWs (l ++ t) = true → noAdjWs t = true := by
  intro l
  induction l with
  | nil => intro t h; exact h
  | cons a l' ih =>
    intro t h
    rw [List.cons_append] at h
    exact ih t (noAdjWs_tail h)

theorem noAdjWs_append_left : ∀ l t : List Char,
    noAdjWs (l ++ t) = true → noAdjWs l = true := by
  intro l
  induction l with
  | nil => intro t _; rfl
  | cons a l' ih =>
    intro t h
    cases l' with
    | nil => rfl
    | cons b l'' =>
      rw [List.cons_append, List.cons_append] at h
      simp only [noAdjWs, Bool.and_eq_true] at h ⊢
      refine ⟨h.1, ?_⟩
      exact ih t (by rw [List.cons_append]; exact h.2)

theorem wsOnlySpace_sublist {l₁ l₂ : List Char} (h : List.Sublist l₁ l₂)
    (hp : wsOnlySpace l₂ = true) : wsOnlySpace l₁ = true := by
  rw [wsOnlySpace, List.all_eq_true] at hp ⊢
  intro x hx
  exact hp x (h.subset hx)

/-- Every list is its trailing-white-space truncation followed by the
dropped white space. -/
theorem dropTrailingWs_append (l : List Char) :
    l = dropTrailingWs l ++ (l.reverse.takeWhile isWs).reverse := by
  conv_lhs =>
    rw [← List.reverse_reverse l,
      ← List.takeWhile_append_dropWhile isWs l.reverse]
  rw [List.reverse_append]
  rfl

theorem head?_append_of_ne_nil {l t : List Char} (h : l ≠ []) :
    (l ++ t).head? = l.head? := by
  cases l with
  | nil => exact absurd rfl h
  | cons c cs => rfl

theorem trimmedEnds_trimChars (l : List Char) :
    trimmedEnds (trimChars l) = true := by
  rw [trimChars]
  have hlast : ∀ m : List Char,
      (match (dropTrailingWs m).getLast? with
        | some c => !isWs c
        | none => true) = true := by
    intro m
    rw [dropTrailingWs, List.getLast?_reverse]
    cases hh : (m.reverse.dropWhile isWs).head? with
    | none => rfl
    | some c =>
      have := head_dropWhile_not_ws m.reverse c hh
      simp [this]
  rw [trimmedEnds, Bool.and_eq_true]
  refine ⟨?_, hlast _⟩
  cases hout : dropTrailingWs (l.dropWhile isWs) with
  | nil => rfl
  | cons d ds =>
    have hy := dropTrailingWs_append (l.dropWhile isWs)
    have hhead : (l.dropWhile isWs).head? = some d := by
      rw [hy, head?_append_of_ne_nil (by rw [hout]; simp), hout]
      rfl
    have := head_dropWhile_not_ws l d hhead
    simp [hout, this]

/-- The last two stages of every `stripHtml` pipeline produce a single-space
normalized, end-trimmed string. -/
theorem trimCollapse_props (m : List Char) :
    noAdjWs (trimChars (collapseWs m)) = true
      ∧ wsOnlySpace (trimChars (collapseWs m)) = true
      ∧ trimmedEnds (trimChars (collapseWs m)) = true := by
  obtain ⟨hA, hB, _⟩ := collapseWsF_props m.length m (Nat.le_refl _)
  have hz : collapseWs m = collapseWsF m.length m := rfl
  rw [← hz] at hA hB
  have hsplit := List.takeWhile_append_dropWhile isWs (collapseWs m)
  have hy : noAdjWs ((collapseWs m).dropWhile isWs) = true :=
    noAdjWs_append_right _ _ (by rw [hsplit]; exact hA)
  have hsuf : List.IsSuffix ((collapseWs m).dropWhile isWs) (collapseWs m) :=
    ⟨_, hsplit⟩
  have hyB : wsOnlySpace ((collapseWs m).dropWhile isWs) = true :=
    wsOnlySpace_sublist hsuf.sublist hB
  have hdec := dropTrailingWs_append ((collapseWs m).dropWhile isWs)
  have hpre : List.IsPrefix (dropTrailingWs ((collapseWs m).dropWhile isWs))
      ((collapseWs m).dropWhile isWs) := ⟨_, hdec.symm⟩
  refine ⟨?_, ?_, trimmedEnds_trimChars _⟩
  · have hy' := hy
    rw [hdec] at hy'
    exact noAdjWs_append_left _ _ hy'
  · exact wsOnlySpace_sublist hpre.sublist hyB

/-- C6 amended: both `stripHtml` revisions strip tags (no `<...>` span
survives the tag pass), collapse white-space runs to single spaces and trim
both ends; the five entities decode as specified (shown on a representative
input); but only the src/api/cron.js revision handles CDATA — it removes the
markers and keeps the content, while the src/cron.js revision has no CDATA
step at all (an unterminated CDATA section passes through verbatim, and a
terminated one is swallowed whole by the tag regex, content included). -/
theorem c6_striphtml_normalization (l : List Char) :
    tagFree (removeTags l) = true
      ∧ noAdjWs (stripHtmlCronL l) = true
      ∧ wsOnlySpace (stripHtmlCronL l) = true
      ∧ trimmedEnds (stripHtmlCronL l) = true
      ∧ noAdjWs (stripHtmlApiL l) = true
      ∧ wsOnlySpace (stripHtmlApiL l) = true
      ∧ trimmedEnds (stripHtmlApiL l) = true
      ∧ stripHtmlApi "<![CDATA[hi]]>" = "hi"
      ∧ stripHtmlCron "<![CDATA[hi]]>" = ""
      ∧ stripHtmlApi "a&amp;b &lt;c&gt; &quot;d&quot; &#39;e&#39;"
          = "a&b <c> \"d\" 'e'"
      ∧ stripHtmlCron "  a   b\t\nc  " = "a b c"
      ∧ stripHtmlCron "<b>x</b> y <i>z</i>" = "x y z" := by
  obtain ⟨h1, h2, h3⟩ := trimCollapse_props (decodeEntities (removeTags l))
  obtain ⟨h4, h5, h6⟩ :=
    trimCollapse_props (decodeEntities (removeTags (removeCdata l)))
  exact ⟨tagFree_removeTags l, h1, h2, h3, h4, h5, h6,
    by decide, by decide, by decide, by decide, by decide⟩

/-- C6 counterexample: the src/cron.js `stripHtml` does not remove CDATA
markers — an unterminated CDATA opener survives verbatim (the claim says
every input has its `<![CDATA[` marker removed, as the api revision indeed
does). -/
theorem c6_counterexample :
    stripHtmlCron "<![CDATA[hi" = "<![CDATA[hi"
      ∧ stripHtmlApi "<![CDATA[hi" = "hi" :=
  ⟨by decide, by decide⟩

/-!  C10: the news cap.  -/

/-- C10: whatever the Google News queries return, the rev1 feed contributes
at most 15 items and the rev2 feed at most 10 — the deduplicated list is
truncated by `slice(0, 15)` resp. `slice(0, 10)` before being returned. -/
theorem c10_news_cap (parse : String → Option Int) (cutoff : Int)
    (entries : List RssEntry) :
    (googleNewsRev1 parse cutoff entries).length ≤ 15
      ∧ (googleNewsRev2 parse cutoff entries).length ≤ 10 :=
  ⟨List.length_take_le 15 _, List.length_take_le 10 _⟩

end PoliticalAlpha
